import Mathlib

/-!
Verification of the scoped probe event engine (`src/index.ts`, `src/browser.ts`).

The engine is embedded shallowly:
* JS symbols (`Symbol('probe-scope')`) become `Nat` tags allocated from a
  counter `nextTag`, compared by equality (symbol identity).
* The `AsyncLocalStorage` ambient context becomes the `ambient : Option Nat`
  field of the system state (`als.getStore()?.scope`).
* Promise `resolve`/`reject` identities become waiter ids (`Nat`); a promise
  settlement is recorded as an explicit output value.
* A thrown JS exception is an `Except.error`; the only user code that can
  throw inside the delivery callback is the `filter` predicate, so the filter
  is modelled as `ProbeEvent V → Except String Bool`.
* `setTimeout` timers: a waiter's timer is live exactly while the waiter sits
  in `pending` (the source clears the timer precisely when it removes the
  waiter); the timer callback firing is the explicit step `timerFire`.
-/

namespace VitestProbe

/-- `ProbeEvent` from `index.ts`: `{ label: L, value: V }` (labels are strings). -/
structure ProbeEvent (V : Type) where
  label : String
  value : V
deriving DecidableEq, Repr

/-- `InternalEvent = ProbeEvent & { __scope?: symbol }`; the optional scope tag. -/
structure InternalEvent (V : Type) where
  label : String
  value : V
  scope : Option Nat
deriving DecidableEq, Repr

/-- One entry of the `pending` array: `resolve`/`reject` identity as `id`,
and the duration `ms` its `setTimeout` timer was armed with. -/
structure Waiter where
  id : Nat
  ms : Nat
deriving DecidableEq, Repr

/-- The two protocol errors constructed by the source:
`new Error(\x60Probe timeout after ${ms}ms\x60)` and `new Error('Probe disposed')`. -/
inductive ProbeError where
  | timeout (ms : Nat)
  | disposed
deriving DecidableEq, Repr

/-- The message string carried by each error object. -/
def ProbeError.message : ProbeError → String
  | .timeout ms => "Probe timeout after " ++ toString ms ++ "ms"
  | .disposed => "Probe disposed"

/-- The per-probe state captured by the closures inside `getProbe`:
`scope`, `bufferSize`, `timeoutDefault`, `opts.filter`, `queue`, `pending`,
plus `registered` — whether `sub` is currently in the `subscribers` set. -/
structure ObserverState (V : Type) where
  scope : Nat
  bufferSize : Nat
  timeoutDefault : Nat
  filter : Option (ProbeEvent V → Except String Bool)
  queue : List (ProbeEvent V)
  pending : List Waiter
  registered : Bool

/-- The scope-matched tail of the delivery callback `sub` (source lines 69–73):
pop the oldest waiter and settle it (`clearTimeout` is implicit in removing the
waiter, which is what keeps its timer live/dead in this model), else push onto
`queue`, evicting the oldest first when `queue.length >= bufferSize`. -/
def deliverMatched {V : Type} (st : ObserverState V) (ev : ProbeEvent V) :
    ObserverState V × Option (Nat × ProbeEvent V) :=
  match st.pending with
  | p :: rest => ({ st with pending := rest }, some (p.id, ev))
  | [] =>
      let q := if st.bufferSize ≤ st.queue.length then st.queue.tail else st.queue
      ({ st with queue := q ++ [ev] }, none)

/-- The delivery callback `sub` (source lines 67–74).  Returns `.error` when the
user filter throws; otherwise the new state and the settled waiter, if any. -/
def sub {V : Type} (st : ObserverState V) (e : InternalEvent V) :
    Except String (ObserverState V × Option (Nat × ProbeEvent V)) :=
  if e.scope = some st.scope then
    let ev : ProbeEvent V := ⟨e.label, e.value⟩
    match st.filter with
    | some f =>
        match f ev with
        | .error msg => .error msg
        | .ok b => if b then .ok (deliverMatched st ev) else .ok (st, none)
    | none => .ok (deliverMatched st ev)
  else .ok (st, none)

/-- `try { s(e) } catch { /* swallow */ }` — one subscriber call as performed at
the broadcast site of `_emitImpl`: a thrown exception is discarded (the filter
throws before any state mutation, so the state is unchanged). -/
def subCaught {V : Type} (st : ObserverState V) (e : InternalEvent V) :
    ObserverState V × Option (Nat × ProbeEvent V) :=
  match sub st e with
  | .ok r => r
  | .error _ => (st, none)

/-- Broadcast reaches a probe only while its `sub` is in the `subscribers` set. -/
def subIfRegistered {V : Type} (st : ObserverState V) (e : InternalEvent V) :
    ObserverState V × Option (Nat × ProbeEvent V) :=
  if st.registered then subCaught st e else (st, none)

/-- `next(timeoutMs?)` (source lines 78–88), up to the point where it either
resolves from the buffer or registers a waiter; `wid` is the identity of this
call's `resolve`.  Returns the resolved event, if resolution was immediate. -/
def next {V : Type} (st : ObserverState V) (wid : Nat) (timeoutMs : Option Nat) :
    ObserverState V × Option (ProbeEvent V) :=
  match st.queue with
  | ev :: rest => ({ st with queue := rest }, some ev)
  | [] =>
      let ms := timeoutMs.getD st.timeoutDefault
      ({ st with pending := st.pending ++ [⟨wid, ms⟩] }, none)

/-- The `setTimeout` callback of waiter `wid` firing (source lines 82–86):
find the waiter by its `resolve` identity, splice it out, and reject with the
timeout error.  Rejecting an already-settled promise is a no-op, which is the
`none` branch. -/
def timerFire {V : Type} (st : ObserverState V) (wid : Nat) :
    ObserverState V × Option ProbeError :=
  match st.pending.find? (fun w => w.id == wid) with
  | some w => ({ st with pending := st.pending.eraseP (fun w => w.id == wid) },
               some (.timeout w.ms))
  | none => (st, none)

/-- `dispose()` (source lines 90–94): leave the `subscribers` set, reject every
pending waiter with `'Probe disposed'` (clearing its timer), clear the buffer. -/
def dispose {V : Type} (st : ObserverState V) :
    ObserverState V × List (Nat × ProbeError) :=
  ({ st with registered := false, pending := [], queue := [] },
   st.pending.map (fun w => (w.id, ProbeError.disposed)))

/-- The options object accepted by `getProbe`. -/
structure ProbeOpts (V : Type) where
  timeoutMs : Option Nat := none
  filter : Option (ProbeEvent V → Except String Bool) := none
  bufferSize : Option Nat := none

/-- The state a fresh probe starts with inside `getProbe` (source lines 55–65):
defaults `bufferSize ?? 100`, `timeoutMs ?? 1000`, fresh scope symbol `tag`,
empty queue and pending, `sub` added to `subscribers`. -/
def mkObserver {V : Type} (tag : Nat) (opts : ProbeOpts V) : ObserverState V :=
  { scope := tag
    bufferSize := opts.bufferSize.getD 100
    timeoutDefault := opts.timeoutMs.getD 1000
    filter := opts.filter
    queue := []
    pending := []
    registered := true }

/-- The module-level state: the symbol allocator, the `subscribers` set in
insertion order (disposed members keep a tombstone with `registered = false`),
and the `AsyncLocalStorage` ambient scope. -/
structure SystemState (V : Type) where
  nextTag : Nat
  observers : List (ObserverState V)
  ambient : Option Nat

/-- Entering `als.run({ scope: tag }, fn)`: the ambient context during `fn`. -/
def enterScope {V : Type} (sys : SystemState V) (tag : Nat) : SystemState V :=
  { sys with ambient := some tag }

/-- `getProbe(opts)` in a test build: allocate a fresh scope symbol, register a
new probe.  Returns the new system and the index of the new probe. -/
def getProbe {V : Type} (sys : SystemState V) (opts : ProbeOpts V) :
    SystemState V × Nat :=
  ({ sys with
      nextTag := sys.nextTag + 1
      observers := sys.observers ++ [mkObserver sys.nextTag opts] },
   sys.observers.length)

/-- The broadcast loop `for (const s of subscribers) { try { s(e) } catch { } }`,
carrying the index of the current subscriber so settlements can name the probe
they belong to. -/
def broadcast {V : Type} (e : InternalEvent V) :
    List (ObserverState V) → Nat →
    List (ObserverState V) × List (Nat × Nat × ProbeEvent V)
  | [], _ => ([], [])
  | o :: rest, i =>
      let r := subIfRegistered o e
      let tailR := broadcast e rest (i + 1)
      (r.1 :: tailR.1,
       (match r.2 with
        | some (wid, ev) => [(i, wid, ev)]
        | none => []) ++ tailR.2)

/-- `probeEmit` in a test build (`_emitImpl`, source lines 22–28): no-op when no
subscriber is registered, else tag one event with the ambient scope and
broadcast it.  The second component lists the promise settlements produced:
`(probe index, waiter id, event)`. -/
def probeEmit {V : Type} (sys : SystemState V) (label : String) (value : V) :
    SystemState V × List (Nat × Nat × ProbeEvent V) :=
  if sys.observers.all (fun o => !o.registered) then (sys, [])
  else
    let e : InternalEvent V := ⟨label, value, sys.ambient⟩
    let r := broadcast e sys.observers 0
    ({ sys with observers := r.1 }, r.2)

/-- A single-probe action: a matching emission performed inside this probe's
`run` scope (so the event carries the probe's own tag), or a `next()` call. -/
inductive Act (V : Type) where
  | emit (label : String) (value : V)
  | nextC (wid : Nat) (timeoutMs : Option Nat)

/-- One action against one probe.  The output pairs a waiter/call id with the
event that settled it (for `nextC`, immediate resolution from the buffer). -/
def stepAct {V : Type} (st : ObserverState V) : Act V →
    ObserverState V × Option (Nat × ProbeEvent V)
  | .emit l v => subCaught st ⟨l, v, some st.scope⟩
  | .nextC wid t =>
      let r := next st wid t
      (r.1, r.2.map (fun ev => (wid, ev)))

/-- Run a trace of actions, collecting the settlements in the order they occur. -/
def runTrace {V : Type} (st : ObserverState V) :
    List (Act V) → ObserverState V × List (Nat × ProbeEvent V)
  | [] => (st, [])
  | a :: rest =>
      let r := stepAct st a
      let tailR := runTrace r.1 rest
      (tailR.1, r.2.toList ++ tailR.2)

/-- The `next()` call ids of a trace, in call order. -/
def callsOf {V : Type} : List (Act V) → List Nat
  | [] => []
  | .nextC wid _ :: rest => wid :: callsOf rest
  | .emit _ _ :: rest => callsOf rest

/-- The emitted events of a trace, in emission order. -/
def emitsOf {V : Type} : List (Act V) → List (ProbeEvent V)
  | [] => []
  | .emit l v :: rest => ⟨l, v⟩ :: emitsOf rest
  | .nextC _ _ :: rest => emitsOf rest

/-- Deliver a list of events emitted inside this probe's own `run` scope,
one `sub` invocation each, with no intervening consumption. -/
def deliverList {V : Type} (st : ObserverState V) :
    List (ProbeEvent V) → ObserverState V
  | [] => st
  | ev :: rest => deliverList (subCaught st ⟨ev.label, ev.value, some st.scope⟩).1 rest

/-- Scope-tag well-formedness of the module state: every allocated tag is below
the allocator counter, and distinct probes carry distinct tags. -/
def ScopesWf {V : Type} (sys : SystemState V) : Prop :=
  (∀ o ∈ sys.observers, o.scope < sys.nextTag) ∧
  List.Pairwise (fun a b => a.scope ≠ b.scope) sys.observers

/-- The steady-state invariant of one probe: `queue` and `pending` are never
simultaneously non-empty. -/
def WaiterQueueInv {V : Type} (st : ObserverState V) : Prop :=
  st.queue = [] ∨ st.pending = []

/-- The error message of the browser stub (`src/browser.ts`). -/
def browserFailMessage : String :=
  "vitest-probe: getProbe() is Node‑only and cannot be used in the browser."

/-- `getProbe` of the browser stub: throws at the call itself. -/
def getProbeBrowser : Except String Unit := .error browserFailMessage

/-- The message of the `fail` closure in the non-test branch of `index.ts`. -/
def prodFailMessage : String := "getProbe() used outside tests"

/-- The handle returned by the non-test branch of `getProbe` in `index.ts`
(source lines 45–53): `next` and the async-iterator step reject with `fail`'s
error, `dispose` is a no-op. -/
structure ProdHandle (V : Type) where
  next : Option Nat → Except String (ProbeEvent V)
  iterNext : Except String (ProbeEvent V)
  dispose : Except String Unit

/-- `run<T>(fn) { return fn() }` of the non-test handle: just calls `fn`. -/
def prodRun {T : Type} (fn : Unit → T) : T := fn ()

/-- The non-test branch of `getProbe` in `index.ts`: the factory call itself
returns normally (`.ok`), handing back the stub handle. -/
def getProbeProd (V : Type) : Except String (ProdHandle V) :=
  .ok { next := fun _ => .error prodFailMessage
        iterNext := .error prodFailMessage
        dispose := .ok () }

/-! ### Helper lemmas -/

/-- The two protocol error messages differ, whatever the duration. -/
theorem message_timeout_ne_disposed (ms : Nat) :
    (ProbeError.timeout ms).message ≠ ProbeError.disposed.message := by
  intro h
  have h2 := congrArg String.length h
  have e1 : ("Probe timeout after ").length = 20 := rfl
  have e2 : ("ms").length = 2 := rfl
  have e3 : ("Probe disposed").length = 14 := rfl
  simp [ProbeError.message, String.length_append, e1, e2, e3] at h2
  omega

/-- Firing the timer of a waiter just appended behind fresh company removes
exactly that waiter and rejects with its own duration. -/
theorem timerFire_append_fresh {V : Type} (st : ObserverState V) (w : Waiter)
    (hfresh : ∀ x ∈ st.pending, x.id ≠ w.id) :
    timerFire { st with pending := st.pending ++ [w] } w.id
      = (st, some (.timeout w.ms)) := by
  have hnone : st.pending.find? (fun x => x.id == w.id) = none := by
    rw [List.find?_eq_none]
    intro x hx
    simpa using hfresh x hx
  have hfind : (st.pending ++ [w]).find? (fun x => x.id == w.id) = some w := by
    rw [List.find?_append, hnone]
    simp
  have herase : (st.pending ++ [w]).eraseP (fun x => x.id == w.id) = st.pending := by
    rw [List.eraseP_append_right]
    · simp
    · intro x hx
      simpa using hfresh x hx
  simp [timerFire, hfind, herase]

/-! ### C4 — next(): immediate resolution, waiter registration, timeout -/

/-- C4: `next(timeoutMs)` resolves immediately with the oldest buffered event
when the buffer is non-empty (registering no waiter); otherwise it registers a
waiter whose timer is armed with `timeoutMs ?? defaultTimeoutMs` (the probe
default being `opts.timeoutMs ?? 1000`), and when that timer fires with no
matching event having arrived, the call rejects with the timeout error — whose
message mentions the configured duration — and the waiter is removed from the
pending set. -/
theorem next_timeout_contract {V : Type} (st : ObserverState V) (wid : Nat)
    (t : Option Nat) (hfresh : ∀ x ∈ st.pending, x.id ≠ wid) :
    (∀ ev q, st.queue = ev :: q →
        next st wid t = ({ st with queue := q }, some ev)) ∧
    (st.queue = [] →
        next st wid t
          = ({ st with pending := st.pending ++ [⟨wid, t.getD st.timeoutDefault⟩] },
             none) ∧
        timerFire (next st wid t).1 wid
          = (st, some (.timeout (t.getD st.timeoutDefault)))) ∧
    (ProbeError.timeout (t.getD st.timeoutDefault)).message
      = "Probe timeout after " ++ toString (t.getD st.timeoutDefault) ++ "ms" ∧
    (∀ (tag : Nat) (opts : ProbeOpts V),
        (mkObserver tag opts).timeoutDefault = opts.timeoutMs.getD 1000) := by
  refine ⟨fun ev q hq => by simp [next, hq], fun hq => ⟨by simp [next, hq], ?_⟩,
    rfl, fun tag opts => rfl⟩
  have h1 : (next st wid t).1
      = { st with pending := st.pending ++ [⟨wid, t.getD st.timeoutDefault⟩] } := by
    simp [next, hq]
  rw [h1]
  exact timerFire_append_fresh st ⟨wid, t.getD st.timeoutDefault⟩ hfresh

/-- The concrete probe state of the C4 witness: `timeoutMs: 50`, no emissions. -/
def c4st : ObserverState Nat := mkObserver 0 { timeoutMs := some 50 }

/-- C4 witness: a probe configured with `timeoutMs: 50`, no buffered events:
`next()` registers a waiter armed with 50 ms and the timer firing rejects with
the timeout error for 50 ms. -/
theorem next_timeout_contract_witness :
    (∀ x ∈ c4st.pending, x.id ≠ 3) ∧
    ((∀ ev q, c4st.queue = ev :: q →
        next c4st 3 none = ({ c4st with queue := q }, some ev)) ∧
     (c4st.queue = [] →
        next c4st 3 none
          = ({ c4st with pending := c4st.pending
                ++ [⟨3, (none : Option Nat).getD c4st.timeoutDefault⟩] }, none) ∧
        timerFire (next c4st 3 none).1 3
          = (c4st, some (.timeout ((none : Option Nat).getD c4st.timeoutDefault)))) ∧
     (ProbeError.timeout ((none : Option Nat).getD c4st.timeoutDefault)).message
       = "Probe timeout after "
           ++ toString ((none : Option Nat).getD c4st.timeoutDefault) ++ "ms" ∧
     (∀ (tag : Nat) (opts : ProbeOpts Nat),
        (mkObserver tag opts).timeoutDefault = opts.timeoutMs.getD 1000)) :=
  ⟨by simp [c4st, mkObserver], next_timeout_contract c4st 3 none (by simp [c4st, mkObserver])⟩

/-! ### C5 — dispose() -/

/-- C5: `dispose()` removes the delivery callback from the registry (no event
reaches the probe afterwards), rejects every still-pending waiter with the
distinct disposed error (distinguishable from every timeout error, both as a
value and by message) while cancelling each waiter's timer (no timer can fire
against the disposed probe any more), clears the buffer, and is idempotent. -/
theorem dispose_contract {V : Type} (st : ObserverState V) :
    (dispose st).1.registered = false ∧
    (∀ e, subIfRegistered (dispose st).1 e = ((dispose st).1, none)) ∧
    (dispose st).2 = st.pending.map (fun w => (w.id, ProbeError.disposed)) ∧
    (∀ ms, ProbeError.disposed ≠ ProbeError.timeout ms) ∧
    (∀ ms, ProbeError.disposed.message ≠ (ProbeError.timeout ms).message) ∧
    (∀ wid, timerFire (dispose st).1 wid = ((dispose st).1, none)) ∧
    (dispose st).1.queue = [] ∧
    dispose (dispose st).1 = ((dispose st).1, []) := by
  refine ⟨rfl, fun e => by simp [subIfRegistered, dispose], rfl, ?_, ?_, ?_, rfl, rfl⟩
  · intro ms h
    cases h
  · intro ms h
    exact message_timeout_ne_disposed ms h.symm
  · intro wid
    simp [timerFire, dispose]

/-! ### C6 — getProbe in non-test builds -/

/-- C6 counterexample: in the non-test build of `index.ts` (a production
build), the `getProbe` factory call itself returns normally with a stub
handle — it does not fail at the call. -/
theorem getProbeProd_returns_handle : (getProbeProd Nat).isOk = true := rfl

/-- C6 amended: the browser stub's `getProbe` throws immediately at the factory
call; the non-test branch of the main module's `getProbe` instead returns a stub
handle whose `next()` and async-iteration step reject with the explicit error
`getProbe() used outside tests`, whose `dispose()` is a silent no-op, and whose
`run(fn)` simply invokes `fn` — so in that build the failure surfaces when the
handle is used to consume events, not at the factory call itself. -/
theorem prod_factory_behavior (V : Type) (t : Option Nat) :
    getProbeBrowser = .error browserFailMessage ∧
    (∃ h : ProdHandle V, getProbeProd V = .ok h ∧
        h.next t = .error prodFailMessage ∧
        h.iterNext = .error prodFailMessage ∧
        h.dispose = .ok ()) ∧
    (∀ (T : Type) (fn : Unit → T), prodRun fn = fn ()) :=
  ⟨rfl, ⟨_, rfl, rfl, rfl, rfl⟩, fun _ _ => rfl⟩

/-! ### C10 — next() issued after dispose() -/

/-- C10: a `next()` call issued after `dispose()` does not reject with the
disposed error: the disposed rejections of the dispose call concern exactly the
waiters that were pending at dispose time; the late call registers a fresh
waiter with a live timer; no emission can settle that waiter (the callback has
left the registry, so delivery is skipped); and when its timer fires the call
rejects with the timeout error for its configured duration. -/
theorem next_after_dispose {V : Type} (st : ObserverState V) (wid : Nat)
    (t : Option Nat) :
    next (dispose st).1 wid t
      = ({ (dispose st).1 with pending := [⟨wid, t.getD st.timeoutDefault⟩] }, none) ∧
    (∀ p ∈ (dispose st).2,
        p.1 ∈ st.pending.map Waiter.id ∧ p.2 = ProbeError.disposed) ∧
    (∀ e, subIfRegistered (next (dispose st).1 wid t).1 e
        = ((next (dispose st).1 wid t).1, none)) ∧
    timerFire (next (dispose st).1 wid t).1 wid
      = ((dispose st).1, some (.timeout (t.getD st.timeoutDefault))) := by
  have h1 : next (dispose st).1 wid t
      = ({ (dispose st).1 with pending := [⟨wid, t.getD st.timeoutDefault⟩] }, none) := by
    simp [next, dispose]
  refine ⟨h1, ?_, ?_, ?_⟩
  · intro p hp
    simp [dispose] at hp
    obtain ⟨w, hw, hpw⟩ := hp
    subst hpw
    exact ⟨List.mem_map_of_mem Waiter.id hw, rfl⟩
  · intro e
    rw [h1]
    simp [subIfRegistered, dispose]
  · rw [h1]
    have := timerFire_append_fresh (dispose st).1 ⟨wid, t.getD st.timeoutDefault⟩
      (by simp [dispose])
    simpa [dispose] using this

/-- The concrete probe state of the C10 witness: one buffered event and one
pending waiter (id 0, 40 ms timer) at dispose time. -/
def c10st : ObserverState String :=
  { scope := 0, bufferSize := 100, timeoutDefault := 1000, filter := none,
    queue := [⟨"q", "x"⟩], pending := [⟨0, 40⟩], registered := true }

/-- C10 witness: the probe `c10st` is disposed; a later `next()` call with
waiter id 1 registers a fresh waiter, cannot be settled by any emission, and
its timer firing rejects with the timeout error. -/
theorem next_after_dispose_witness :
    (next (dispose c10st).1 1 none
      = ({ (dispose c10st).1 with
           pending := [⟨1, (none : Option Nat).getD c10st.timeoutDefault⟩] }, none)) ∧
    ((0, ProbeError.disposed) ∈ (dispose c10st).2 →
      ((0 : Nat) ∈ c10st.pending.map Waiter.id ∧
        ProbeError.disposed = ProbeError.disposed)) ∧
    (∀ e, subIfRegistered (next (dispose c10st).1 1 none).1 e
        = ((next (dispose c10st).1 1 none).1, none)) ∧
    timerFire (next (dispose c10st).1 1 none).1 1
      = ((dispose c10st).1,
         some (.timeout ((none : Option Nat).getD c10st.timeoutDefault))) := by
  obtain ⟨h1, h2, h3, h4⟩ := next_after_dispose c10st 1 none
  exact ⟨h1, fun hmem => h2 (0, ProbeError.disposed) hmem, h3, h4⟩

/-- The delivery callback either leaves the probe untouched with no settlement
(scope mismatch, filter veto, or a swallowed filter exception) or performs the
matched delivery. -/
theorem subCaught_cases {V : Type} (st : ObserverState V) (e : InternalEvent V) :
    subCaught st e = (st, none) ∨
    subCaught st e = deliverMatched st ⟨e.label, e.value⟩ := by
  by_cases h : e.scope = some st.scope
  · rcases hf : st.filter with _ | f
    · right
      simp [subCaught, sub, h, hf]
    · rcases hr : f ⟨e.label, e.value⟩ with msg | b
      · left
        simp [subCaught, sub, h, hf, hr]
      · cases b
        · left
          simp [subCaught, sub, h, hf, hr]
        · right
          simp [subCaught, sub, h, hf, hr]
  · left
    simp [subCaught, sub, h]

/-- With a matching scope and no filter, the callback is exactly the matched
delivery. -/
theorem subCaught_match_nofilter {V : Type} (st : ObserverState V)
    (e : InternalEvent V) (hs : e.scope = some st.scope) (hf : st.filter = none) :
    subCaught st e = deliverMatched st ⟨e.label, e.value⟩ := by
  simp [subCaught, sub, hs, hf]

/-- Matched delivery preserves the buffer/waiter disjointness invariant. -/
theorem deliverMatched_inv {V : Type} (st : ObserverState V) (ev : ProbeEvent V)
    (hinv : WaiterQueueInv st) : WaiterQueueInv (deliverMatched st ev).1 := by
  unfold deliverMatched
  rcases hp : st.pending with _ | ⟨p, ps⟩
  · exact Or.inr rfl
  · rcases hinv with hq | hpe
    · exact Or.inl hq
    · rw [hp] at hpe
      cases hpe

/-! ### C8 — the buffer/waiter disjointness invariant -/

/-- C8: the invariant "buffer and pending waiters are never simultaneously
non-empty" is preserved by the delivery callback, by `next()`, by `dispose()`
and by a firing timer; moreover a matching arriving event settles the oldest
waiter when one is outstanding and produces no settlement when none is, and a
`next()` call resolves immediately from a non-empty buffer and otherwise only
registers a waiter. -/
theorem waiter_queue_inv {V : Type} (st : ObserverState V)
    (hinv : WaiterQueueInv st) :
    (∀ e, WaiterQueueInv (subCaught st e).1) ∧
    (∀ wid t, WaiterQueueInv (next st wid t).1) ∧
    WaiterQueueInv (dispose st).1 ∧
    (∀ wid, WaiterQueueInv (timerFire st wid).1) ∧
    (∀ e : InternalEvent V, e.scope = some st.scope → st.filter = none →
       (∀ p ps, st.pending = p :: ps →
          subCaught st e = ({ st with pending := ps }, some (p.id, ⟨e.label, e.value⟩))) ∧
       (st.pending = [] → (subCaught st e).2 = none)) ∧
    (∀ wid t ev q, st.queue = ev :: q →
       next st wid t = ({ st with queue := q }, some ev)) ∧
    (∀ wid t, st.queue = [] →
       next st wid t
         = ({ st with pending := st.pending ++ [⟨wid, t.getD st.timeoutDefault⟩] },
            none)) := by
  refine ⟨?_, ?_, Or.inl rfl, ?_, ?_, ?_, ?_⟩
  · intro e
    rcases subCaught_cases st e with h | h
    · rw [h]
      exact hinv
    · rw [h]
      exact deliverMatched_inv st _ hinv
  · intro wid t
    rcases hq : st.queue with _ | ⟨ev, q⟩
    · simp only [next, hq]
      exact Or.inl rfl
    · rcases hinv with hq2 | hpe
      · rw [hq] at hq2
        cases hq2
      · simp only [next, hq]
        exact Or.inr hpe
  · intro wid
    rcases hfind : st.pending.find? (fun w => w.id == wid) with _ | w
    · simp only [timerFire, hfind]
      exact hinv
    · simp only [timerFire, hfind]
      rcases hinv with hq | hpe
      · exact Or.inl hq
      · rw [hpe] at hfind
        simp at hfind
  · intro e hs hf
    have hsub := subCaught_match_nofilter st e hs hf
    constructor
    · intro p ps hp
      rw [hsub]
      simp [deliverMatched, hp]
    · intro hp
      rw [hsub]
      simp [deliverMatched, hp]
  · intro wid t ev q hq
    simp [next, hq]
  · intro wid t hq
    simp [next, hq]

/-- The concrete probe state of the C8 witness: a fresh default probe. -/
def c8st : ObserverState Nat := mkObserver 0 {}

/-- C8 witness: the invariant statement instantiated at a fresh probe. -/
theorem waiter_queue_inv_witness :
    WaiterQueueInv c8st ∧
    ((∀ e, WaiterQueueInv (subCaught c8st e).1) ∧
     (∀ wid t, WaiterQueueInv (next c8st wid t).1) ∧
     WaiterQueueInv (dispose c8st).1 ∧
     (∀ wid, WaiterQueueInv (timerFire c8st wid).1) ∧
     (∀ e : InternalEvent Nat, e.scope = some c8st.scope → c8st.filter = none →
        (∀ p ps, c8st.pending = p :: ps →
           subCaught c8st e
             = ({ c8st with pending := ps }, some (p.id, ⟨e.label, e.value⟩))) ∧
        (c8st.pending = [] → (subCaught c8st e).2 = none)) ∧
     (∀ wid t ev q, c8st.queue = ev :: q →
        next c8st wid t = ({ c8st with queue := q }, some ev)) ∧
     (∀ wid t, c8st.queue = [] →
        next c8st wid t
          = ({ c8st with pending := c8st.pending
                ++ [⟨wid, t.getD c8st.timeoutDefault⟩] }, none))) :=
  ⟨Or.inl rfl, waiter_queue_inv c8st (Or.inl rfl)⟩

/-! ### C2 — FIFO pairing of next() calls with emitted events -/

/-- Unfolding one step of a trace. -/
theorem runTrace_cons {V : Type} (st : ObserverState V) (a : Act V)
    (rest : List (Act V)) :
    runTrace st (a :: rest)
      = ((runTrace (stepAct st a).1 rest).1,
         (stepAct st a).2.toList ++ (runTrace (stepAct st a).1 rest).2) := rfl

/-- The FIFO pairing lemma: over any trace of in-scope emissions and `next()`
calls starting from a state whose buffer and waiter list are not both
non-empty (no filter, buffer large enough that nothing is dropped), the
settlements produced are exactly the positional pairing of
(outstanding waiters, then `next()` calls in call order) with
(buffered events, then emissions in emission order). -/
theorem runTrace_pairing {V : Type} (tr : List (Act V)) (st : ObserverState V)
    (hfil : st.filter = none)
    (hdisj : st.queue = [] ∨ st.pending = [])
    (hbuf : st.queue.length + (emitsOf tr).length ≤ st.bufferSize) :
    (runTrace st tr).2
      = List.zip (st.pending.map Waiter.id ++ callsOf tr)
          (st.queue ++ emitsOf tr) := by
  induction tr generalizing st with
  | nil =>
      rcases hdisj with h | h
      · simp [runTrace, callsOf, emitsOf, h]
      · simp [runTrace, callsOf, emitsOf, h]
  | cons a rest ih =>
      cases a with
      | emit l v =>
          have hstep := subCaught_match_nofilter st ⟨l, v, some st.scope⟩ rfl hfil
          rcases hp : st.pending with _ | ⟨p, ps⟩
          · have hlt : ¬ st.bufferSize ≤ st.queue.length := by
              simp only [emitsOf, List.length_cons] at hbuf
              omega
            have hstep2 : stepAct st (Act.emit l v)
                = ({ st with queue := st.queue ++ [⟨l, v⟩] }, none) := by
              simp only [stepAct, hstep, deliverMatched, hp, if_neg hlt]
            rw [runTrace_cons, hstep2]
            have hih := ih ({ st with queue := st.queue ++ [⟨l, v⟩] }) hfil
              (Or.inr hp)
              (by show (st.queue ++ [(⟨l, v⟩ : ProbeEvent V)]).length
                    + (emitsOf rest).length ≤ st.bufferSize
                  simp only [emitsOf, List.length_cons] at hbuf
                  simp only [List.length_append, List.length_singleton]
                  omega)
            simp only [Option.toList_none, List.nil_append]
            rw [hih]
            simp [callsOf, emitsOf, hp, List.append_assoc]
          · have hq : st.queue = [] := by
              rcases hdisj with h | h
              · exact h
              · rw [hp] at h
                cases h
            have hstep2 : stepAct st (Act.emit l v)
                = ({ st with pending := ps }, some (p.id, ⟨l, v⟩)) := by
              simp only [stepAct, hstep, deliverMatched, hp]
            rw [runTrace_cons, hstep2]
            have hih := ih ({ st with pending := ps }) hfil (Or.inl hq)
              (by show st.queue.length + (emitsOf rest).length ≤ st.bufferSize
                  simp only [emitsOf, List.length_cons] at hbuf
                  omega)
            simp only [Option.toList_some, List.singleton_append]
            rw [hih]
            simp [callsOf, emitsOf, hp, hq, List.zip_cons_cons]
      | nextC wid t =>
          rcases hq : st.queue with _ | ⟨ev, q⟩
          · have hstep2 : stepAct st (Act.nextC wid t)
                = ({ st with pending := st.pending
                      ++ [⟨wid, t.getD st.timeoutDefault⟩] }, none) := by
              simp [stepAct, next, hq]
            rw [runTrace_cons, hstep2]
            have hih := ih ({ st with pending := st.pending
                ++ [⟨wid, t.getD st.timeoutDefault⟩] }) hfil (Or.inl hq)
              (by show st.queue.length + (emitsOf rest).length ≤ st.bufferSize
                  simpa [emitsOf] using hbuf)
            simp only [Option.toList_none, List.nil_append]
            rw [hih]
            simp [callsOf, emitsOf, hq, List.map_append, List.append_assoc]
          · have hpe : st.pending = [] := by
              rcases hdisj with h | h
              · rw [hq] at h
                cases h
              · exact h
            have hstep2 : stepAct st (Act.nextC wid t)
                = ({ st with queue := q }, some (wid, ev)) := by
              simp [stepAct, next, hq]
            rw [runTrace_cons, hstep2]
            have hih := ih ({ st with queue := q }) hfil (Or.inr hpe)
              (by show q.length + (emitsOf rest).length ≤ st.bufferSize
                  simp only [emitsOf, hq, List.length_cons] at hbuf
                  omega)
            simp only [Option.toList_some, List.singleton_append]
            rw [hih]
            simp [callsOf, emitsOf, hq, hpe, List.zip_cons_cons]

/-- C2: for a single probe with no user filter, over any interleaving of
in-scope emissions and `next()` calls from a reachable state (buffer and
pending waiters not both non-empty; buffer large enough that nothing is
dropped), events are consumed in exactly emission order and concurrent
`next()` calls each get their own waiter slot, settled in registration order:
the settlements are the positional pairing of (outstanding waiters, then
`next()` calls in call order) with (buffered events, then emissions in
emission order), so the oldest waiter receives the earliest matching event. -/
theorem next_fifo_order {V : Type} (tr : List (Act V)) (st : ObserverState V)
    (hfil : st.filter = none)
    (hdisj : st.queue = [] ∨ st.pending = [])
    (hbuf : st.queue.length + (emitsOf tr).length ≤ st.bufferSize) :
    (runTrace st tr).2
      = List.zip (st.pending.map Waiter.id ++ callsOf tr)
        (st.queue ++ emitsOf tr) :=
  runTrace_pairing tr st hfil hdisj hbuf

/-- The concrete probe of the C2 witness. -/
def c2st : ObserverState Nat := mkObserver 5 {}

/-- The concrete trace of the C2 witness: two `next()` calls pipelined before
anything is emitted, three emissions, then a third `next()` call. -/
def c2tr : List (Act Nat) :=
  [.nextC 10 none, .nextC 11 none, .emit "a" 1, .emit "b" 2, .emit "c" 3,
   .nextC 12 none]

/-- C2 witness: waiters 10 and 11 (registered first) receive the first and
second emitted events; call 12 resolves immediately with the third. -/
theorem next_fifo_order_witness :
    (c2st.filter = none ∧ (c2st.queue = [] ∨ c2st.pending = []) ∧
      c2st.queue.length + (emitsOf c2tr).length ≤ c2st.bufferSize) ∧
    (runTrace c2st c2tr).2
      = List.zip (c2st.pending.map Waiter.id ++ callsOf c2tr)
        (c2st.queue ++ emitsOf c2tr) ∧
    (runTrace c2st c2tr).2
      = [(10, ⟨"a", 1⟩), (11, ⟨"b", 2⟩), (12, ⟨"c", 3⟩)] :=
  ⟨⟨rfl, Or.inl rfl, by decide⟩,
   next_fifo_order c2tr c2st rfl (Or.inl rfl) (by decide),
   by decide⟩

/-! ### C3 — drop-oldest backpressure -/

/-- Unfolding one step of an uninterrupted delivery run. -/
theorem deliverList_cons {V : Type} (st : ObserverState V) (ev : ProbeEvent V)
    (rest : List (ProbeEvent V)) :
    deliverList st (ev :: rest)
      = deliverList (subCaught st ⟨ev.label, ev.value, some st.scope⟩).1 rest := rfl

/-- The delivery callback never changes the probe's configuration fields. -/
theorem subCaught_preserves {V : Type} (st : ObserverState V)
    (e : InternalEvent V) :
    (subCaught st e).1.scope = st.scope ∧
    (subCaught st e).1.bufferSize = st.bufferSize ∧
    (subCaught st e).1.timeoutDefault = st.timeoutDefault ∧
    (subCaught st e).1.filter = st.filter ∧
    (subCaught st e).1.registered = st.registered := by
  rcases subCaught_cases st e with h | h <;> rw [h]
  · exact ⟨rfl, rfl, rfl, rfl, rfl⟩
  · rcases hp : st.pending with _ | ⟨p, ps⟩ <;> simp [deliverMatched, hp]

/-- A matching event arriving at a probe with no outstanding waiter and no
filter is pushed onto the buffer, evicting the oldest when full. -/
theorem subCaught_buffer_step {V : Type} (st : ObserverState V)
    (ev : ProbeEvent V) (hp : st.pending = []) (hfil : st.filter = none) :
    subCaught st ⟨ev.label, ev.value, some st.scope⟩
      = ({ st with queue := (if st.bufferSize ≤ st.queue.length
            then st.queue.tail else st.queue) ++ [ev] }, none) := by
  rw [subCaught_match_nofilter st _ rfl hfil]
  simp [deliverMatched, hp]

/-- An uninterrupted filterless delivery run touches only the buffer. -/
theorem deliverList_preserves {V : Type} (evs : List (ProbeEvent V))
    (st : ObserverState V) (hp : st.pending = []) (hfil : st.filter = none) :
    (deliverList st evs).scope = st.scope ∧
    (deliverList st evs).bufferSize = st.bufferSize ∧
    (deliverList st evs).filter = st.filter ∧
    (deliverList st evs).pending = [] := by
  induction evs generalizing st with
  | nil => exact ⟨rfl, rfl, rfl, hp⟩
  | cons ev rest ih =>
      rw [deliverList_cons, subCaught_buffer_step st ev hp hfil]
      exact ih _ hp hfil

/-- The buffer after an uninterrupted filterless delivery run: the most recent
`bufferSize` elements of (initial buffer, then the emissions), in order. -/
theorem deliverList_queue {V : Type} (evs : List (ProbeEvent V))
    (st : ObserverState V) (hB : 1 ≤ st.bufferSize)
    (hq : st.queue.length ≤ st.bufferSize)
    (hp : st.pending = []) (hfil : st.filter = none) :
    (deliverList st evs).queue
      = (st.queue ++ evs).drop ((st.queue ++ evs).length - st.bufferSize) := by
  induction evs generalizing st with
  | nil =>
      simp [deliverList, Nat.sub_eq_zero_of_le hq]
  | cons ev rest ih =>
      rw [deliverList_cons, subCaught_buffer_step st ev hp hfil]
      dsimp only
      by_cases hle : st.bufferSize ≤ st.queue.length
      · rw [if_pos hle]
        have hlen : st.queue.length = st.bufferSize := le_antisymm hq hle
        rcases hq0 : st.queue with _ | ⟨hd, tl⟩
        · exfalso
          rw [hq0] at hlen
          simp at hlen
          omega
        · have htl : tl.length + 1 = st.bufferSize := by
            rw [hq0] at hlen
            simpa using hlen
          have hih := ih { st with queue := tl ++ [ev] } hB
            (by simp only [List.length_append, List.length_singleton]
                omega)
            hp hfil
          simp only [List.tail_cons]
          rw [hih]
          have e1 : (tl ++ ev :: rest).length - st.bufferSize = rest.length := by
            simp only [List.length_append, List.length_cons]
            omega
          have e2 : ((hd :: tl) ++ ev :: rest).length - st.bufferSize
              = rest.length + 1 := by
            simp only [List.length_append, List.length_cons]
            omega
          simp only [List.append_assoc, List.singleton_append]
          rw [e1, e2, List.cons_append, List.drop_succ_cons]
      · rw [if_neg hle]
        have hih := ih { st with queue := st.queue ++ [ev] } hB
          (by simp only [List.length_append, List.length_singleton]
              omega)
          hp hfil
        rw [hih]
        simp only [List.append_assoc, List.singleton_append]

/-- `callsOf` of a pure sequence of `next()` calls. -/
theorem callsOf_map_nextC {V : Type} (wids : List Nat) :
    callsOf (V := V) (wids.map (fun w => Act.nextC w none)) = wids := by
  induction wids with
  | nil => rfl
  | cons w ws ih => simp [callsOf, ih]

/-- `emitsOf` of a pure sequence of `next()` calls. -/
theorem emitsOf_map_nextC {V : Type} (wids : List Nat) :
    emitsOf (V := V) (wids.map (fun w => Act.nextC w none)) = [] := by
  induction wids with
  | nil => rfl
  | cons w ws ih => simp [emitsOf, ih]

/-- C3 counterexample to the claim's universal quantification over bufferSize:
with `bufferSize: 0` and two matching emissions, the buffer afterwards holds
ONE event (each arrival first evicts and is then pushed), so it exceeds the
configured bufferSize and the "the N most recent remain, the rest are lost"
description (which here predicts an empty buffer) fails. -/
theorem bufferSize_zero_keeps_one :
    (deliverList (mkObserver 0 { bufferSize := some 0 } : ObserverState Nat)
        [⟨"x", 1⟩, ⟨"x", 2⟩]).queue = [⟨"x", 2⟩] ∧
    (mkObserver 0 { bufferSize := some 0 } : ObserverState Nat).bufferSize = 0 ∧
    0 < (deliverList (mkObserver 0 { bufferSize := some 0 } : ObserverState Nat)
        [⟨"x", 1⟩, ⟨"x", 2⟩]).queue.length := by
  refine ⟨by decide, rfl, by decide⟩

/-- C3 amended: for every bufferSize N ≥ 1, when more than N matching events
are emitted before any are consumed, exactly the oldest `count − N` are lost
and the N most recent remain in the buffer in emission order; the buffer never
holds more than bufferSize events, and a subsequent run of `next()` calls
retrieves the surviving events in emission order.  (For the degenerate
`bufferSize 0` the code instead retains the single most recent event.) -/
theorem backpressure_drop_oldest {V : Type} (st : ObserverState V)
    (evs : List (ProbeEvent V)) (hB : 1 ≤ st.bufferSize) (hq : st.queue = [])
    (hp : st.pending = []) (hfil : st.filter = none) :
    (deliverList st evs).queue = evs.drop (evs.length - st.bufferSize) ∧
    (deliverList st evs).queue.length ≤ st.bufferSize ∧
    (∀ wids : List Nat,
       (runTrace (deliverList st evs) (wids.map (fun w => Act.nextC w none))).2
         = wids.zip (deliverList st evs).queue) := by
  obtain ⟨hsc, hbs, hfl, hpe⟩ := deliverList_preserves evs st hp hfil
  have hmain : (deliverList st evs).queue
      = evs.drop (evs.length - st.bufferSize) := by
    have := deliverList_queue evs st hB (by rw [hq]; simp) hp hfil
    rwa [hq, List.nil_append] at this
  have hlen : (deliverList st evs).queue.length ≤ st.bufferSize := by
    rw [hmain, List.length_drop]
    omega
  refine ⟨hmain, hlen, fun wids => ?_⟩
  have hpair := runTrace_pairing (wids.map (fun w => Act.nextC w none))
    (deliverList st evs) (hfl.trans hfil) (Or.inr hpe)
    (by rw [emitsOf_map_nextC, hbs]
        simpa using hlen)
  rw [hpair, hpe, callsOf_map_nextC, emitsOf_map_nextC]
  simp [List.zip]

/-- The concrete probe of the C3 witness: `bufferSize: 1`. -/
def c3st : ObserverState Nat := mkObserver 0 { bufferSize := some 1 }

/-- C3 witness — the spec's concrete scenario: with `bufferSize: 1`, emitting
`('x', 1)` then `('x', 2)` with no intervening consumption leaves exactly
`{label: 'x', value: 2}` in the buffer, and the next `next()` resolves to it. -/
theorem backpressure_drop_oldest_witness :
    (1 ≤ c3st.bufferSize ∧ c3st.queue = [] ∧ c3st.pending = [] ∧
      c3st.filter = none) ∧
    ((deliverList c3st [⟨"x", 1⟩, ⟨"x", 2⟩]).queue
        = [⟨"x", 1⟩, ⟨"x", 2⟩].drop
            (([⟨"x", 1⟩, ⟨"x", 2⟩] : List (ProbeEvent Nat)).length - c3st.bufferSize) ∧
     (deliverList c3st [⟨"x", 1⟩, ⟨"x", 2⟩]).queue.length ≤ c3st.bufferSize ∧
     (∀ wids : List Nat,
        (runTrace (deliverList c3st [⟨"x", 1⟩, ⟨"x", 2⟩])
            (wids.map (fun w => Act.nextC w none))).2
          = wids.zip (deliverList c3st [⟨"x", 1⟩, ⟨"x", 2⟩]).queue)) ∧
    (deliverList c3st [⟨"x", 1⟩, ⟨"x", 2⟩]).queue = [⟨"x", 2⟩] ∧
    (next (deliverList c3st [⟨"x", 1⟩, ⟨"x", 2⟩]) 0 none).2 = some ⟨"x", 2⟩ :=
  ⟨⟨by decide, rfl, rfl, rfl⟩,
   backpressure_drop_oldest c3st [⟨"x", 1⟩, ⟨"x", 2⟩] (by decide) rfl rfl rfl,
   by decide, by decide⟩

/-! ### C9 — filter semantics -/

/-- A delivery run whose every event the filter rejects leaves the probe
completely unchanged. -/
theorem deliverList_filtered {V : Type} (evs : List (ProbeEvent V))
    (st : ObserverState V) (f : ProbeEvent V → Except String Bool)
    (hf : st.filter = some f) (hall : ∀ ev, f ev = .ok false) :
    deliverList st evs = st := by
  induction evs with
  | nil => rfl
  | cons ev rest ih =>
      rw [deliverList_cons]
      have hstep : subCaught st ⟨ev.label, ev.value, some st.scope⟩
          = (st, none) := by
        simp [subCaught, sub, hf, hall]
      rw [hstep]
      exact ih

/-- C9: the filter is applied only to events already matching the probe's own
scope — on a scope mismatch the callback's result is the same for every filter,
even one that throws, and nothing is buffered or settled; an event the filter
rejects is neither buffered nor used to settle a waiter; consequently, for an
always-false filter, a `next()` call times out even though matching-scope
events were emitted during the wait. -/
theorem filter_semantics {V : Type} (st : ObserverState V) (e : InternalEvent V)
    (f : ProbeEvent V → Except String Bool) (wid : Nat) (t : Option Nat)
    (evs : List (ProbeEvent V)) (hfresh : ∀ x ∈ st.pending, x.id ≠ wid) :
    (e.scope ≠ some st.scope →
       ∀ g, sub { st with filter := g } e = .ok ({ st with filter := g }, none)) ∧
    (e.scope = some st.scope → st.filter = some f →
       f ⟨e.label, e.value⟩ = .ok false → subCaught st e = (st, none)) ∧
    (st.filter = some f → (∀ ev, f ev = .ok false) → st.queue = [] →
       deliverList (next st wid t).1 evs = (next st wid t).1 ∧
       timerFire (deliverList (next st wid t).1 evs) wid
         = (st, some (.timeout (t.getD st.timeoutDefault)))) := by
  refine ⟨?_, ?_, ?_⟩
  · intro hs g
    simp [sub, hs]
  · intro hs hf hr
    simp [subCaught, sub, hs, hf, hr]
  · intro hf hall hq
    have hnext : (next st wid t).1
        = { st with pending := st.pending ++ [⟨wid, t.getD st.timeoutDefault⟩] } := by
      simp [next, hq]
    have hdel : deliverList (next st wid t).1 evs = (next st wid t).1 :=
      deliverList_filtered evs _ f (by rw [hnext]; exact hf) hall
    refine ⟨hdel, ?_⟩
    rw [hdel, hnext]
    exact timerFire_append_fresh st ⟨wid, t.getD st.timeoutDefault⟩ hfresh

/-- The always-false filter of the C9 witness. -/
def c9f : ProbeEvent Nat → Except String Bool := fun _ => Except.ok false

/-- The concrete probe of the C9 witness: an always-false filter. -/
def c9st : ObserverState Nat := mkObserver 0 { filter := some c9f }

/-- C9 witness: the filter statement at a concrete probe (scope 0, always-false
filter), a mismatched event `('x', 5)` tagged with scope 1, a waiter id 2, the
default timeout, and one matching emission `('y', 7)` during the wait. -/
theorem filter_semantics_witness :
    (∀ x ∈ c9st.pending, x.id ≠ 2) ∧
    (((⟨"x", 5, some 1⟩ : InternalEvent Nat).scope ≠ some c9st.scope →
        ∀ g, sub { c9st with filter := g } ⟨"x", 5, some 1⟩
          = .ok ({ c9st with filter := g }, none)) ∧
     ((⟨"x", 5, some 1⟩ : InternalEvent Nat).scope = some c9st.scope →
        c9st.filter = some c9f →
        c9f ⟨"x", 5⟩ = .ok false →
        subCaught c9st ⟨"x", 5, some 1⟩ = (c9st, none)) ∧
     (c9st.filter = some c9f →
        (∀ ev : ProbeEvent Nat, c9f ev = .ok false) →
        c9st.queue = [] →
        deliverList (next c9st 2 none).1 [⟨"y", 7⟩] = (next c9st 2 none).1 ∧
        timerFire (deliverList (next c9st 2 none).1 [⟨"y", 7⟩]) 2
          = (c9st, some (.timeout ((none : Option Nat).getD c9st.timeoutDefault))))) :=
  ⟨by simp [c9st, mkObserver],
   filter_semantics c9st ⟨"x", 5, some 1⟩ c9f 2 none
     [⟨"y", 7⟩] (by simp [c9st, mkObserver])⟩

/-! ### Broadcast lemmas for C1 and C7 -/

/-- The post-broadcast states: each probe is transformed by its own callback
alone, independently of what the other callbacks did (or threw). -/
theorem broadcast_fst {V : Type} (e : InternalEvent V)
    (l : List (ObserverState V)) (i : Nat) :
    (broadcast e l i).1 = l.map (fun o => (subIfRegistered o e).1) := by
  induction l generalizing i with
  | nil => rfl
  | cons o rest ih => simp [broadcast, ih]

/-- Every settlement reported by a broadcast names a probe of the list and is
that probe's own settlement. -/
theorem broadcast_snd_ge {V : Type} (e : InternalEvent V)
    (l : List (ObserverState V)) (i : Nat) (p : Nat × Nat × ProbeEvent V)
    (hp : p ∈ (broadcast e l i).2) :
    i ≤ p.1 ∧ ∃ o, l.get? (p.1 - i) = some o ∧
      (subIfRegistered o e).2 = some (p.2.1, p.2.2) := by
  induction l generalizing i with
  | nil => simp [broadcast] at hp
  | cons o rest ih =>
      rcases hr : (subIfRegistered o e).2 with _ | ⟨wid, ev⟩
      · simp only [broadcast, hr, List.nil_append] at hp
        obtain ⟨h1, o', ho', hs⟩ := ih (i + 1) hp
        refine ⟨by omega, o', ?_, hs⟩
        have hsub : p.1 - i = (p.1 - (i + 1)) + 1 := by omega
        rw [hsub, List.get?_cons_succ]
        exact ho'
      · simp only [broadcast, hr, List.singleton_append, List.mem_cons] at hp
        rcases hp with hp | hp
        · subst hp
          exact ⟨Nat.le_refl i, o, by simp, hr⟩
        · obtain ⟨h1, o', ho', hs⟩ := ih (i + 1) hp
          refine ⟨by omega, o', ?_, hs⟩
          have hsub : p.1 - i = (p.1 - (i + 1)) + 1 := by omega
          rw [hsub, List.get?_cons_succ]
          exact ho'

/-- A broadcast in which no probe settles a waiter reports no settlements. -/
theorem broadcast_snd_nil {V : Type} (e : InternalEvent V)
    (l : List (ObserverState V)) (i : Nat)
    (h : ∀ o ∈ l, (subIfRegistered o e).2 = none) :
    (broadcast e l i).2 = [] := by
  induction l generalizing i with
  | nil => rfl
  | cons o rest ih =>
      have ho := h o (List.mem_cons_self o rest)
      simp [broadcast, ho, ih _ (fun o' ho' => h o' (List.mem_cons_of_mem _ ho'))]

/-- A probe whose scope does not match the event's tag is left untouched with
no settlement, whether registered or not. -/
theorem subIfRegistered_mismatch {V : Type} (o : ObserverState V)
    (e : InternalEvent V) (hs : e.scope ≠ some o.scope) :
    subIfRegistered o e = (o, none) := by
  have hc : subCaught o e = (o, none) := by
    simp [subCaught, sub, hs]
  simp [subIfRegistered, hc]

/-- The per-probe description of `probeEmit`'s post-states, valid in both the
no-subscribers branch and the broadcast branch. -/
theorem probeEmit_observers {V : Type} (sys : SystemState V) (lab : String)
    (v : V) :
    (probeEmit sys lab v).1.observers
      = sys.observers.map (fun o => (subIfRegistered o ⟨lab, v, sys.ambient⟩).1) := by
  unfold probeEmit
  split
  · next h =>
      have hid : ∀ o ∈ sys.observers,
          (subIfRegistered o ⟨lab, v, sys.ambient⟩).1 = o := by
        intro o ho
        rw [List.all_eq_true] at h
        have hreg : o.registered = false := by simpa using h o ho
        simp [subIfRegistered, hreg]
      simp only []
      rw [List.map_congr_left hid]
      simp
  · simp [broadcast_fst]

/-- Every settlement of `probeEmit` belongs to the probe at its index. -/
theorem probeEmit_snd_mem {V : Type} (sys : SystemState V) (lab : String)
    (v : V) (p : Nat × Nat × ProbeEvent V) (hp : p ∈ (probeEmit sys lab v).2) :
    ∃ o, sys.observers.get? p.1 = some o ∧
      (subIfRegistered o ⟨lab, v, sys.ambient⟩).2 = some (p.2.1, p.2.2) := by
  unfold probeEmit at hp
  split at hp
  · simp at hp
  · obtain ⟨h0, o, ho, hs⟩ := broadcast_snd_ge ⟨lab, v, sys.ambient⟩
      sys.observers 0 p (by simpa using hp)
    exact ⟨o, by simpa using ho, hs⟩

/-- Distinct positions of a pairwise-distinct-scope list carry distinct
scopes. -/
theorem pairwise_get_ne {V : Type} (l : List (ObserverState V))
    (hpair : List.Pairwise (fun a b => a.scope ≠ b.scope) l)
    (i j : Nat) (hij : i ≠ j) (oi oj : ObserverState V)
    (hoi : l.get? i = some oi) (hoj : l.get? j = some oj) :
    oi.scope ≠ oj.scope := by
  obtain ⟨hi1, hi2⟩ := List.get?_eq_some.mp hoi
  obtain ⟨hj1, hj2⟩ := List.get?_eq_some.mp hoj
  rw [List.pairwise_iff_get] at hpair
  rcases Nat.lt_or_ge i j with h | h
  · have := hpair ⟨i, hi1⟩ ⟨j, hj1⟩ h
    rw [hi2, hj2] at this
    exact this
  · have hlt : j < i := by omega
    have := hpair ⟨j, hj1⟩ ⟨i, hi1⟩ hlt
    rw [hi2, hj2] at this
    exact fun hcontra => this hcontra.symm

/-- Creating a probe allocates a scope tag never used before and keeps all
scope tags pairwise distinct. -/
theorem getProbe_preserves_wf {V : Type} (sys : SystemState V)
    (hwf : ScopesWf sys) (opts : ProbeOpts V) :
    ScopesWf (getProbe sys opts).1 := by
  obtain ⟨hfresh, hpair⟩ := hwf
  constructor
  · intro o ho
    simp only [getProbe, List.mem_append, List.mem_singleton] at ho
    rcases ho with ho | ho
    · exact lt_trans (hfresh o ho) (Nat.lt_succ_self _)
    · rw [ho]
      simp [mkObserver, getProbe]
  · simp only [getProbe]
    rw [List.pairwise_append]
    refine ⟨hpair, List.pairwise_singleton _ _, ?_⟩
    intro a ha b hb
    rw [List.mem_singleton] at hb
    rw [hb]
    simp only [mkObserver]
    exact Nat.ne_of_lt (hfresh a ha)

/-! ### C1 — scope isolation -/

/-- C1: in a well-formed system (pairwise-distinct scope tags, as created by
`getProbe`), an event emitted while probe `i`'s scope is the ambient context
leaves every other probe's state untouched and settles none of its waiters;
an event emitted outside any `run` scope carries the absent tag and is
delivered to no probe at all; and `getProbe` preserves well-formedness, so
independently created probes always carry distinct scope tags. -/
theorem scope_isolation {V : Type} (sys : SystemState V) (hwf : ScopesWf sys)
    (i j : Nat) (hij : i ≠ j) (oi : ObserverState V)
    (hoi : sys.observers.get? i = some oi) (lab : String) (v : V) :
    ((probeEmit (enterScope sys oi.scope) lab v).1.observers.get? j
        = sys.observers.get? j) ∧
    (∀ wid ev, (j, wid, ev) ∉ (probeEmit (enterScope sys oi.scope) lab v).2) ∧
    (sys.ambient = none →
       (probeEmit sys lab v).1.observers = sys.observers ∧
       (probeEmit sys lab v).2 = []) ∧
    (∀ opts : ProbeOpts V, ScopesWf (getProbe sys opts).1) := by
  have hobs : (probeEmit (enterScope sys oi.scope) lab v).1.observers
      = sys.observers.map
          (fun o => (subIfRegistered o ⟨lab, v, some oi.scope⟩).1) :=
    probeEmit_observers (enterScope sys oi.scope) lab v
  refine ⟨?_, ?_, ?_, fun opts => getProbe_preserves_wf sys hwf opts⟩
  · rw [hobs, List.get?_map]
    rcases hoj : sys.observers.get? j with _ | oj
    · rfl
    · have hne : oj.scope ≠ oi.scope :=
        pairwise_get_ne sys.observers hwf.2 j i (fun hcontra => hij hcontra.symm)
          oj oi hoj hoi
      have hmis : subIfRegistered oj ⟨lab, v, some oi.scope⟩ = (oj, none) :=
        subIfRegistered_mismatch oj _
          (fun hcontra => hne (Option.some.inj hcontra).symm)
      simp [hmis]
  · intro wid ev hmem
    obtain ⟨o, ho, hs⟩ := probeEmit_snd_mem (enterScope sys oi.scope) lab v
      (j, wid, ev) hmem
    have ho2 : sys.observers.get? j = some o := ho
    have hne : o.scope ≠ oi.scope :=
      pairwise_get_ne sys.observers hwf.2 j i (fun hcontra => hij hcontra.symm)
        o oi ho2 hoi
    have hmis : subIfRegistered o ⟨lab, v, some oi.scope⟩ = (o, none) :=
      subIfRegistered_mismatch o _
        (fun hcontra => hne (Option.some.inj hcontra).symm)
    have hs2 : (subIfRegistered o ⟨lab, v, some oi.scope⟩).2 = some (wid, ev) := hs
    rw [hmis] at hs2
    cases hs2
  · intro hamb0
    have hall : ∀ o ∈ sys.observers,
        subIfRegistered o ⟨lab, v, sys.ambient⟩ = (o, none) := by
      intro o ho
      apply subIfRegistered_mismatch
      rw [hamb0]
      intro hcontra
      cases hcontra
    constructor
    · rw [probeEmit_observers]
      rw [List.map_congr_left (fun o ho => congrArg Prod.fst (hall o ho))]
      simp
    · unfold probeEmit
      split
      · rfl
      · simp only []
        apply broadcast_snd_nil
        intro o ho
        rw [hall o ho]

/-- The concrete system of the C1 witness: two probes created back to back
(scope tags 0 and 1), no active scope yet. -/
def c1sys : SystemState Nat :=
  (getProbe (getProbe ⟨0, [], none⟩ {}).1 {}).1

/-- C1 witness: emitting `('t', 1)` while the first probe's scope is active
leaves the second probe untouched, and emitting with no ambient scope reaches
nobody. -/
theorem scope_isolation_witness :
    (ScopesWf c1sys ∧ (0 : Nat) ≠ 1 ∧
      c1sys.observers.get? 0 = some (mkObserver 0 {})) ∧
    (((probeEmit (enterScope c1sys (mkObserver 0 ({} : ProbeOpts Nat)).scope)
          "t" 1).1.observers.get? 1 = c1sys.observers.get? 1) ∧
     (∀ wid ev, (1, wid, ev) ∉
        (probeEmit (enterScope c1sys (mkObserver 0 ({} : ProbeOpts Nat)).scope)
          "t" 1).2) ∧
     (c1sys.ambient = none →
        (probeEmit c1sys "t" 1).1.observers = c1sys.observers ∧
        (probeEmit c1sys "t" 1).2 = []) ∧
     (∀ opts : ProbeOpts Nat, ScopesWf (getProbe c1sys opts).1)) := by
  have hwf : ScopesWf c1sys :=
    getProbe_preserves_wf _ (getProbe_preserves_wf ⟨0, [], none⟩
      ⟨fun o ho => absurd ho (List.not_mem_nil o), List.Pairwise.nil⟩ {}) {}
  exact ⟨⟨hwf, by decide, rfl⟩,
    scope_isolation c1sys hwf 0 1 (by decide) (mkObserver 0 {}) rfl "t" 1⟩

/-! ### C7 — emit never throws; exceptions are isolated -/

/-- C7: `probeEmit` never throws to its caller: a delivery callback that
throws (the user filter being the throwing code) is swallowed at the broadcast
site leaving that probe unchanged with no settlement; each probe's post-state
is a function of its own prior state and the event alone — independent of any
exception another probe raised — and every settlement reported belongs to the
probe at its own index. -/
theorem emit_exception_isolation {V : Type} (sys : SystemState V)
    (lab : String) (v : V) :
    (∀ (st : ObserverState V) (e : InternalEvent V) (msg : String),
        sub st e = .error msg → subCaught st e = (st, none)) ∧
    ((probeEmit sys lab v).1.observers
        = sys.observers.map (fun o => (subIfRegistered o ⟨lab, v, sys.ambient⟩).1)) ∧
    (∀ p ∈ (probeEmit sys lab v).2,
        ∃ o, sys.observers.get? p.1 = some o ∧
          (subIfRegistered o ⟨lab, v, sys.ambient⟩).2 = some (p.2.1, p.2.2)) := by
  refine ⟨?_, probeEmit_observers sys lab v,
    fun p hp => probeEmit_snd_mem sys lab v p hp⟩
  intro st e msg h
  unfold subCaught
  rw [h]

/-- The throwing probe of the C7 witness: its filter always throws. -/
def c7bad : ObserverState Nat :=
  { scope := 7, bufferSize := 100, timeoutDefault := 1000,
    filter := some (fun _ => Except.error "boom"), queue := [], pending := [],
    registered := true }

/-- The healthy probe of the C7 witness: same scope, no filter. -/
def c7good : ObserverState Nat :=
  { scope := 7, bufferSize := 100, timeoutDefault := 1000, filter := none,
    queue := [], pending := [], registered := true }

/-- The two-probe system of the C7 witness, with scope 7 active. -/
def c7sys : SystemState Nat := ⟨8, [c7bad, c7good], some 7⟩

/-- C7 witness: the first probe's filter throws on the matching event `('a',1)`;
the exception is swallowed (probe unchanged, no settlement) and the same event
is still delivered to — and buffered by — the second probe. -/
theorem emit_exception_isolation_witness :
    (sub c7bad ⟨"a", 1, some 7⟩ = .error "boom" ∧
     subCaught c7bad ⟨"a", 1, some 7⟩ = (c7bad, none)) ∧
    (probeEmit c7sys "a" 1).1.observers
      = [c7bad, { c7good with queue := [⟨"a", 1⟩] }] := by
  constructor
  · exact ⟨rfl, (emit_exception_isolation c7sys "a" 1).1 c7bad
      ⟨"a", 1, some 7⟩ "boom" rfl⟩
  · rw [(emit_exception_isolation c7sys "a" 1).2.1]
    rfl

end VitestProbe
